import Mathlib

set_option maxHeartbeats 1000000

/-!
Shallow embedding of the grouping-heuristic retry engine from
`util/movement-types/src/algs/grouping_heuristic/mod.rs`.

Payload type `T` is a Lean type parameter `α`; `Vec<T>` is `List α`;
`Result<_, anyhow::Error>` is `Except Nat _` (error values are opaque codes);
the driver's unbounded `loop` is modelled with explicit fuel, returning
`none` when fuel runs out.
-/

/-- A failure type for a single member of the heuristically formed group
(`ElementalFailure<T>`). -/
inductive ElementalFailure (α : Type) where
  | instrumental : α → ElementalFailure α
  | terminal : α → ElementalFailure α
deriving DecidableEq

/-- An outcome for a single member of the heuristically formed group
(`ElementalOutcome<T>`). -/
inductive ElementalOutcome (α : Type) where
  | apply : α → ElementalOutcome α
  | success : ElementalOutcome α
  | failure : ElementalFailure α → ElementalOutcome α
deriving DecidableEq

namespace ElementalFailure

variable {α : Type}

/-- Mirrors `ElementalFailure::is_instrumental`. -/
def is_instrumental : ElementalFailure α → Bool
  | .instrumental _ => true
  | .terminal _ => false

/-- Mirrors `ElementalFailure::is_terminal`. -/
def is_terminal : ElementalFailure α → Bool
  | .instrumental _ => false
  | .terminal _ => true

/-- Mirrors `ElementalFailure::to_terminal`. -/
def to_terminal : ElementalFailure α → ElementalFailure α
  | .instrumental t => .terminal t
  | .terminal t => .terminal t

/-- Mirrors `ElementalFailure::to_instrumental`. -/
def to_instrumental : ElementalFailure α → ElementalFailure α
  | .instrumental t => .instrumental t
  | .terminal t => .instrumental t

/-- Mirrors `ElementalFailure::into_inner`. -/
def into_inner : ElementalFailure α → α
  | .instrumental t => t
  | .terminal t => t

/-- Mirrors `impl PartialEq for ElementalFailure<T>` (payload compared with `==`). -/
def eq [BEq α] : ElementalFailure α → ElementalFailure α → Bool
  | .instrumental t1, .instrumental t2 => t1 == t2
  | .terminal t1, .terminal t2 => t1 == t2
  | _, _ => false

end ElementalFailure

namespace ElementalOutcome

variable {α : Type}

/-- Mirrors `ElementalOutcome::new_apply`. -/
def new_apply (t : α) : ElementalOutcome α := .apply t

/-- Mirrors `ElementalOutcome::is_success`. -/
def is_success : ElementalOutcome α → Bool
  | .apply _ => false
  | .success => true
  | .failure _ => false

/-- Mirrors `ElementalOutcome::is_failure`. -/
def is_failure : ElementalOutcome α → Bool
  | .apply _ => false
  | .success => false
  | .failure _ => true

/-- Mirrors `ElementalOutcome::is_apply`. -/
def is_apply : ElementalOutcome α → Bool
  | .apply _ => true
  | .success => false
  | .failure _ => false

/-- Mirrors `ElementalOutcome::is_done`. -/
def is_done : ElementalOutcome α → Bool
  | .apply _ => false
  | .success => true
  | .failure f => f.is_terminal

/-- Mirrors `ElementalOutcome::to_terminal`. -/
def to_terminal : ElementalOutcome α → ElementalOutcome α
  | .apply t => .failure (.terminal t)
  | .success => .success
  | .failure f => .failure f.to_terminal

/-- Mirrors `ElementalOutcome::to_instrumental`. -/
def to_instrumental : ElementalOutcome α → ElementalOutcome α
  | .apply t => .failure (.instrumental t)
  | .success => .success
  | .failure f => .failure f.to_instrumental

/-- Mirrors `ElementalOutcome::to_apply`. -/
def to_apply : ElementalOutcome α → ElementalOutcome α
  | .apply t => .apply t
  | .success => .success
  | .failure f => .apply f.into_inner

/-- Mirrors `impl PartialEq for ElementalOutcome<T>`. -/
def eq [BEq α] : ElementalOutcome α → ElementalOutcome α → Bool
  | .apply t1, .apply t2 => t1 == t2
  | .success, .success => true
  | .failure f1, .failure f2 => f1.eq f2
  | _, _ => false

end ElementalOutcome

/-- The outcomes for a particular group in a grouping heuristic
(`GroupingOutcome<T>`, a tuple struct over `Vec<ElementalOutcome<T>>`). -/
structure GroupingOutcome (α : Type) where
  outcomes : List (ElementalOutcome α)
deriving DecidableEq

/-- Helper embedding the body of `GroupingOutcome::into_original`, which
walks the outcome vector pushing the payload of every non-Success entry. -/
def intoOriginalList {α : Type} : List (ElementalOutcome α) → List α
  | [] => []
  | .apply t :: rest => t :: intoOriginalList rest
  | .success :: rest => intoOriginalList rest
  | .failure (.instrumental t) :: rest => t :: intoOriginalList rest
  | .failure (.terminal t) :: rest => t :: intoOriginalList rest

namespace GroupingOutcome

variable {α : Type}

/-- Mirrors `GroupingOutcome::new_all_success`. -/
def new_all_success (size : Nat) : GroupingOutcome α :=
  ⟨List.replicate size .success⟩

/-- Mirrors `GroupingOutcome::new_apply`. -/
def new_apply (raw_elements : List α) : GroupingOutcome α :=
  ⟨raw_elements.map ElementalOutcome.new_apply⟩

/-- Mirrors `impl From<Vec<T>> for GroupingOutcome<T>`. -/
def ofRawList (outcome : List α) : GroupingOutcome α :=
  ⟨outcome.map ElementalOutcome.new_apply⟩

/-- Mirrors `GroupingOutcome::new_apply_distribution`: all elements are placed
into the 0th position of the distribution under one grouping outcome, via the
`From<Vec<T>>` conversion. -/
def new_apply_distribution (raw_elements : List α) : List (GroupingOutcome α) :=
  [ofRawList raw_elements]

/-- Mirrors `GroupingOutcome::new`. -/
def new (outcome : List (ElementalOutcome α)) : GroupingOutcome α :=
  ⟨outcome⟩

/-- Mirrors `GroupingOutcome::all_succeeded`. -/
def all_succeeded (g : GroupingOutcome α) : Bool :=
  g.outcomes.all fun outcome => outcome.is_success

/-- Mirrors `GroupingOutcome::all_to_terminal`. -/
def all_to_terminal (g : GroupingOutcome α) : GroupingOutcome α :=
  ⟨g.outcomes.map fun outcome => outcome.to_terminal⟩

/-- Mirrors `GroupingOutcome::all_to_apply`. -/
def all_to_apply (g : GroupingOutcome α) : GroupingOutcome α :=
  ⟨g.outcomes.map fun outcome => outcome.to_apply⟩

/-- Mirrors `GroupingOutcome::all_done`. -/
def all_done (g : GroupingOutcome α) : Bool :=
  g.outcomes.all fun outcome => outcome.is_done

/-- Mirrors `GroupingOutcome::into_inner`. -/
def into_inner (g : GroupingOutcome α) : List (ElementalOutcome α) :=
  g.outcomes

/-- Mirrors `GroupingOutcome::into_original`. -/
def into_original (g : GroupingOutcome α) : List α :=
  intoOriginalList g.outcomes

/-- Mirrors `impl PartialEq for GroupingOutcome<T>`:
`self.0.iter().zip(other.0.iter()).all(|(a, b)| a == b)`. -/
def eq [BEq α] (g1 g2 : GroupingOutcome α) : Bool :=
  (g1.outcomes.zip g2.outcomes).all fun p => p.1.eq p.2

end GroupingOutcome

/-- A heuristic of the stack, seen through its only trait method
`GroupingHeuristic::distribute`. -/
def Heuristic (α : Type) : Type :=
  List (GroupingOutcome α) → Except Nat (List (GroupingOutcome α))

/-- Mirrors `GroupingHeuristicStack::distribute`: threads the distribution
through the heuristics in list order, propagating the first error with `?`. -/
def distributeStack {α : Type} : List (Heuristic α) → List (GroupingOutcome α) →
    Except Nat (List (GroupingOutcome α))
  | [], distribution => .ok distribution
  | h :: rest, distribution =>
    match h distribution with
    | .error e => .error e
    | .ok d1 => distributeStack rest d1

/-- Embeds the round body of both drivers that pushes `func(outcome)?` for
each group of the distribution, in order, aborting at the first error. -/
def processRound {α : Type} (func : GroupingOutcome α → Except Nat (GroupingOutcome α)) :
    List (GroupingOutcome α) → Except Nat (List (GroupingOutcome α))
  | [] => .ok []
  | g :: rest =>
    match func g with
    | .error e => .error e
    | .ok g1 =>
      match processRound func rest with
      | .error e => .error e
      | .ok rest1 => .ok (g1 :: rest1)

/-- Mirrors `GroupingHeuristicStack::run` (the synchronous driver): each round
distributes, applies `func` to every resulting group, returns when every
replacement group is `all_done`, and otherwise loops on the new distribution.
The unbounded `loop` is modelled with fuel; `none` means fuel ran out. -/
def run {α : Type} (hs : List (Heuristic α))
    (func : GroupingOutcome α → Except Nat (GroupingOutcome α)) :
    Nat → List (GroupingOutcome α) → Option (Except Nat (List (GroupingOutcome α)))
  | 0, _ => none
  | fuel + 1, distribution =>
    match distributeStack hs distribution with
    | .error e => some (.error e)
    | .ok d1 =>
      match processRound func d1 with
      | .error e => some (.error e)
      | .ok new_distribution =>
        if new_distribution.all fun outcome => outcome.all_done then
          some (.ok new_distribution)
        else
          run hs func fuel new_distribution

/-- Mirrors `GroupingHeuristicStack::run_async_sequential`: the same loop as
`run`, but the processing function is awaited group by group; since each
group's future completes before the next begins, the pure embedding has the
same shape as the synchronous driver. -/
def run_async_sequential {α : Type} (hs : List (Heuristic α))
    (func : GroupingOutcome α → Except Nat (GroupingOutcome α)) :
    Nat → List (GroupingOutcome α) → Option (Except Nat (List (GroupingOutcome α)))
  | 0, _ => none
  | fuel + 1, distribution =>
    match distributeStack hs distribution with
    | .error e => some (.error e)
    | .ok d1 =>
      match processRound func d1 with
      | .error e => .some (.error e)
      | .ok new_distribution =>
        if new_distribution.all fun outcome => outcome.all_done then
          some (.ok new_distribution)
        else
          run_async_sequential hs func fuel new_distribution

/-- Instrumented variant of the round body: additionally returns, in order,
the list of groups that were actually passed to `func` during the round. -/
def processRoundTrace {α : Type}
    (func : GroupingOutcome α → Except Nat (GroupingOutcome α)) :
    List (GroupingOutcome α) →
    Except Nat (List (GroupingOutcome α)) × List (GroupingOutcome α)
  | [] => (.ok [], [])
  | g :: rest =>
    match func g with
    | .error e => (.error e, [g])
    | .ok g1 =>
      match processRoundTrace func rest with
      | (.error e, calls) => (.error e, g :: calls)
      | (.ok rest1, calls) => (.ok (g1 :: rest1), g :: calls)

/-- Instrumented variant of `run`: additionally returns, in order, every group
that was passed to `func` across all rounds. -/
def runWithCalls {α : Type} (hs : List (Heuristic α))
    (func : GroupingOutcome α → Except Nat (GroupingOutcome α)) :
    Nat → List (GroupingOutcome α) →
    Option (Except Nat (List (GroupingOutcome α)) × List (GroupingOutcome α))
  | 0, _ => none
  | fuel + 1, distribution =>
    match distributeStack hs distribution with
    | .error e => some (.error e, [])
    | .ok d1 =>
      match processRoundTrace func d1 with
      | (.error e, calls) => some (.error e, calls)
      | (.ok new_distribution, calls) =>
        if new_distribution.all fun outcome => outcome.all_done then
          some (.ok new_distribution, calls)
        else
          match runWithCalls hs func fuel new_distribution with
          | none => none
          | some (r, calls2) => some (r, calls ++ calls2)

/-- Written from the spec's words for §4.2 `into_original` (refinement side):
the raw payload of a live element — Apply or either Failure kind — and `none`
for a Success entry, to be compared against the source's `into_original`. -/
def livePayloadSpec {α : Type} : ElementalOutcome α → Option α
  | .apply t => some t
  | .success => none
  | .failure (.instrumental t) => some t
  | .failure (.terminal t) => some t

/-- Concrete heuristic used in witnesses: leaves the distribution unchanged. -/
def okHeuristic : Heuristic Nat := fun d => .ok d

/-- Concrete heuristic used in witnesses: always fails with error code 7. -/
def errHeuristic : Heuristic Nat := fun _ => .error 7

/-- Elementwise step of the concrete processing function used against C1:
advances `Apply 1` to `Apply 2`, finishes any other Apply, keeps the rest. -/
def cexStep : ElementalOutcome Nat → ElementalOutcome Nat
  | .apply 1 => .apply 2
  | .apply _ => .success
  | o => o

/-- Concrete processing function used against C1: applies `cexStep` to every
outcome of the group and never errors. -/
def cexFunc : GroupingOutcome Nat → Except Nat (GroupingOutcome Nat) :=
  fun g => .ok ⟨g.outcomes.map cexStep⟩

section Lemmas

variable {α : Type}

lemma intoOriginalList_map_new_apply (xs : List α) :
    intoOriginalList (xs.map ElementalOutcome.new_apply) = xs := by
  induction xs with
  | nil => rfl
  | cons x xs ih => simp [ElementalOutcome.new_apply, intoOriginalList, ih]

lemma intoOriginalList_eq_filterMap (l : List (ElementalOutcome α)) :
    intoOriginalList l = l.filterMap livePayloadSpec := by
  induction l with
  | nil => rfl
  | cons o rest ih =>
    cases o with
    | apply t => simp [intoOriginalList, livePayloadSpec, ih]
    | success => simp [intoOriginalList, livePayloadSpec, ih]
    | failure f =>
      cases f with
      | instrumental t => simp [intoOriginalList, livePayloadSpec, ih]
      | terminal t => simp [intoOriginalList, livePayloadSpec, ih]

lemma elementalFailure_eq_self [BEq α] [LawfulBEq α] (f : ElementalFailure α) :
    f.eq f = true := by
  cases f <;> simp [ElementalFailure.eq]

lemma elementalOutcome_eq_self [BEq α] [LawfulBEq α] (o : ElementalOutcome α) :
    o.eq o = true := by
  cases o with
  | apply t => simp [ElementalOutcome.eq]
  | success => rfl
  | failure f => simpa [ElementalOutcome.eq] using elementalFailure_eq_self f

lemma run_async_sequential_eq_run (hs : List (Heuristic α))
    (func : GroupingOutcome α → Except Nat (GroupingOutcome α)) :
    ∀ fuel d, run_async_sequential hs func fuel d = run hs func fuel d := by
  intro fuel
  induction fuel with
  | zero => intro d; rfl
  | succ n ih =>
    intro d
    rw [run_async_sequential, run]
    split
    · rfl
    · split
      · rfl
      · split
        · rfl
        · exact ih _

lemma run_ok_all_done (hs : List (Heuristic α))
    (func : GroupingOutcome α → Except Nat (GroupingOutcome α)) :
    ∀ fuel d r, run hs func fuel d = some (.ok r) →
      (r.all fun g => g.all_done) = true := by
  intro fuel
  induction fuel with
  | zero => intro d r h; exact absurd h (by simp [run])
  | succ n ih =>
    intro d r h
    rw [run] at h
    split at h
    · exact absurd (Option.some.inj h) (by simp)
    · split at h
      · exact absurd (Option.some.inj h) (by simp)
      · split at h
        · rename_i nd hproc hdone
          obtain rfl : nd = r := Except.ok.inj (Option.some.inj h)
          exact hdone
        · exact ih _ _ h

lemma run_ok_first_round (hs : List (Heuristic α))
    (func : GroupingOutcome α → Except Nat (GroupingOutcome α))
    (fuel : Nat) (d r : List (GroupingOutcome α))
    (h : run hs func fuel d = some (.ok r)) :
    ∃ d1 nd, distributeStack hs d = .ok d1 ∧ processRound func d1 = .ok nd := by
  cases fuel with
  | zero => exact absurd h (by simp [run])
  | succ n =>
    rw [run] at h
    split at h
    · exact absurd (Option.some.inj h) (by simp)
    · rename_i d1 hdist
      split at h
      · exact absurd (Option.some.inj h) (by simp)
      · rename_i nd hproc
        exact ⟨d1, nd, hdist, hproc⟩

lemma processRound_exists_mem
    (func : GroupingOutcome α → Except Nat (GroupingOutcome α)) :
    ∀ (l nd : List (GroupingOutcome α)), processRound func l = .ok nd →
      ∀ g ∈ l, ∃ g', g' ∈ nd ∧ func g = .ok g' := by
  intro l
  induction l with
  | nil => intro nd _ g hg; exact absurd hg (by simp)
  | cons a rest ih =>
    intro nd h g hg
    rw [processRound] at h
    split at h
    · exact absurd h (by simp)
    · rename_i a1 hfa
      split at h
      · exact absurd h (by simp)
      · rename_i rest1 hrest
        obtain rfl : a1 :: rest1 = nd := Except.ok.inj h
        rcases List.mem_cons.mp hg with rfl | hmem
        · exact ⟨a1, List.mem_cons_self _ _, hfa⟩
        · obtain ⟨g', hg', hfg⟩ := ih rest1 hrest g hmem
          exact ⟨g', List.mem_cons_of_mem _ hg', hfg⟩

lemma run_preserves_terminal (t : α) (hs : List (Heuristic α))
    (func : GroupingOutcome α → Except Nat (GroupingOutcome α))
    (hheur : ∀ d d', distributeStack hs d = .ok d' →
       (∃ g ∈ d, ElementalOutcome.failure (.terminal t) ∈ g.outcomes) →
       (∃ g ∈ d', ElementalOutcome.failure (.terminal t) ∈ g.outcomes))
    (hfunc : ∀ g g', func g = .ok g' →
       ElementalOutcome.failure (.terminal t) ∈ g.outcomes →
       ElementalOutcome.failure (.terminal t) ∈ g'.outcomes) :
    ∀ fuel d r, run hs func fuel d = some (.ok r) →
      (∃ g ∈ d, ElementalOutcome.failure (.terminal t) ∈ g.outcomes) →
      (∃ g ∈ r, ElementalOutcome.failure (.terminal t) ∈ g.outcomes) := by
  intro fuel
  induction fuel with
  | zero => intro d r h; exact absurd h (by simp [run])
  | succ n ih =>
    intro d r h hex
    rw [run] at h
    split at h
    · exact absurd (Option.some.inj h) (by simp)
    · rename_i d1 hdist
      have hex1 := hheur d d1 hdist hex
      split at h
      · exact absurd (Option.some.inj h) (by simp)
      · rename_i nd hproc
        have hex2 : ∃ g ∈ nd, ElementalOutcome.failure (.terminal t) ∈ g.outcomes := by
          obtain ⟨g, hg, hmem⟩ := hex1
          obtain ⟨g', hg', hfg⟩ := processRound_exists_mem func d1 nd hproc g hg
          exact ⟨g', hg', hfunc g g' hfg hmem⟩
        split at h
        · obtain rfl : nd = r := Except.ok.inj (Option.some.inj h)
          exact hex2
        · exact ih nd r h hex2

lemma grouping_eq_append (g ext : List (ElementalOutcome Nat)) :
    GroupingOutcome.eq ⟨g⟩ ⟨g ++ ext⟩ = true := by
  induction g with
  | nil => rfl
  | cons a g ih =>
    simp only [GroupingOutcome.eq] at ih ⊢
    rw [List.cons_append, List.zip_cons_cons, List.all_cons]
    simp only [Bool.and_eq_true]
    exact ⟨elementalOutcome_eq_self a, ih⟩

end Lemmas

/-- C3: constructing a group with `new_apply(xs)` and then calling
`into_original` returns exactly `xs`, order and multiplicity preserved. -/
theorem new_apply_into_original_roundtrip :
    ∀ (α : Type) (xs : List α),
      (GroupingOutcome.new_apply xs).into_original = xs := by
  intro α xs
  exact intoOriginalList_map_new_apply xs

/-- C4: none of the conversions `to_terminal`, `to_instrumental`, `to_apply`
changes a Success outcome: each maps Success to Success. -/
theorem success_preserved_by_conversions :
    ∀ (α : Type),
      (ElementalOutcome.success : ElementalOutcome α).to_terminal = .success ∧
      (ElementalOutcome.success : ElementalOutcome α).to_instrumental = .success ∧
      (ElementalOutcome.success : ElementalOutcome α).to_apply = .success :=
  fun _ => ⟨rfl, rfl, rfl⟩

/-- C5: `into_original` returns exactly the payloads of the non-Success
outcomes (Apply, Instrumental Failure, and Terminal Failure alike), discarding
Success entries and preserving the relative order of the extracted payloads:
it agrees with filtering the outcome list through the spec's notion of a live
payload. -/
theorem into_original_extracts_live :
    ∀ (α : Type) (g : GroupingOutcome α),
      g.into_original = g.outcomes.filterMap livePayloadSpec := by
  intro α g
  exact intoOriginalList_eq_filterMap g.outcomes

/-- C6: `to_terminal` on outcomes is idempotent; `ElementalFailure.to_terminal`
and `ElementalFailure.to_instrumental` are idempotent and preserve the wrapped
payload; and `to_apply(Success) = Success`. -/
theorem conversions_idempotent :
    ∀ (α : Type) (o : ElementalOutcome α) (f : ElementalFailure α),
      o.to_terminal.to_terminal = o.to_terminal ∧
      f.to_terminal.to_terminal = f.to_terminal ∧
      f.to_terminal.into_inner = f.into_inner ∧
      f.to_instrumental.to_instrumental = f.to_instrumental ∧
      f.to_instrumental.into_inner = f.into_inner ∧
      (ElementalOutcome.success : ElementalOutcome α).to_apply = .success := by
  intro α o f
  refine ⟨?_, ?_, ?_, ?_, ?_, rfl⟩
  · cases o with
    | apply t => rfl
    | success => rfl
    | failure g => cases g <;> rfl
  · cases f <;> rfl
  · cases f <;> rfl
  · cases f <;> rfl
  · cases f <;> rfl

/-- C8: `new_apply_distribution` places all raw elements, each wrapped as
Apply, into a single group at position 0 of the resulting distribution, which
therefore has length 1. -/
theorem new_apply_distribution_single_group :
    ∀ (α : Type) (xs : List α),
      GroupingOutcome.new_apply_distribution xs =
        [GroupingOutcome.mk (xs.map ElementalOutcome.apply)] ∧
      (GroupingOutcome.new_apply_distribution xs).length = 1 := by
  intro α xs
  exact ⟨rfl, rfl⟩

/-- C9: `GroupingOutcome` equality compares only up to the length of the
shorter group: a group always compares equal to any extension of itself, and
in particular `[Success]` compares equal to `[Success, Apply 0]` although the
lengths differ. -/
theorem grouping_eq_ignores_extra_elements :
    (∀ (g ext : List (ElementalOutcome Nat)),
       GroupingOutcome.eq ⟨g⟩ ⟨g ++ ext⟩ = true) ∧
    GroupingOutcome.eq (GroupingOutcome.mk ([.success] : List (ElementalOutcome Nat)))
        (GroupingOutcome.mk [.success, .apply 0]) = true ∧
    (GroupingOutcome.mk ([.success] : List (ElementalOutcome Nat))).outcomes.length ≠
      (GroupingOutcome.mk ([.success, .apply 0] : List (ElementalOutcome Nat))).outcomes.length := by
  refine ⟨grouping_eq_append, by decide, by decide⟩

/-- C1 is false as stated: the drivers pass each post-distribute group whole
to the processing function, Terminal failures included. Here, starting from
the distribution `[[Failure(Terminal 0), Apply 1]]` with no heuristics, the
instrumented driver records two calls, and the second round's call still
receives the group containing `Failure(Terminal 0)`; the uninstrumented
drivers return the same final distribution. -/
theorem terminal_short_circuit_counterexample :
    runWithCalls [] cexFunc 5 [⟨[.failure (.terminal 0), .apply 1]⟩] =
      some (.ok [⟨[.failure (.terminal 0), .success]⟩],
        [⟨[.failure (.terminal 0), .apply 1]⟩, ⟨[.failure (.terminal 0), .apply 2]⟩]) ∧
    run [] cexFunc 5 [⟨[.failure (.terminal 0), .apply 1]⟩] =
      some (.ok [⟨[.failure (.terminal 0), .success]⟩]) ∧
    run_async_sequential [] cexFunc 5 [⟨[.failure (.terminal 0), .apply 1]⟩] =
      some (.ok [⟨[.failure (.terminal 0), .success]⟩]) :=
  ⟨rfl, rfl, rfl⟩

/-- C1 (amended): a `Failure(Terminal)` element counts as done for the
termination predicate, and — although the drivers pass it to the processing
function inside its group in every round — whenever the heuristics and the
processing function preserve terminal elements, the element is still present
in the Distribution either driver finally returns. -/
theorem terminal_done_and_persists :
    (∀ (α : Type) (t : α),
       (ElementalOutcome.failure (.terminal t)).is_done = true) ∧
    (∀ (α : Type) (t : α) (hs : List (Heuristic α))
       (func : GroupingOutcome α → Except Nat (GroupingOutcome α)),
       (∀ d d', distributeStack hs d = .ok d' →
          (∃ g ∈ d, ElementalOutcome.failure (.terminal t) ∈ g.outcomes) →
          (∃ g ∈ d', ElementalOutcome.failure (.terminal t) ∈ g.outcomes)) →
       (∀ g g', func g = .ok g' →
          ElementalOutcome.failure (.terminal t) ∈ g.outcomes →
          ElementalOutcome.failure (.terminal t) ∈ g'.outcomes) →
       ∀ fuel d r,
         run hs func fuel d = some (.ok r) ∨
         run_async_sequential hs func fuel d = some (.ok r) →
         (∃ g ∈ d, ElementalOutcome.failure (.terminal t) ∈ g.outcomes) →
         (∃ g ∈ r, ElementalOutcome.failure (.terminal t) ∈ g.outcomes)) := by
  constructor
  · intro α t
    rfl
  · intro α t hs func hheur hfunc fuel d r hrun hex
    rcases hrun with hrun | hrun
    · exact run_preserves_terminal t hs func hheur hfunc fuel d r hrun hex
    · rw [run_async_sequential_eq_run] at hrun
      exact run_preserves_terminal t hs func hheur hfunc fuel d r hrun hex

/-- Closed instance of `terminal_done_and_persists`: with no heuristics and an
identity processing function, a lone terminal failure survives into the
returned distribution. -/
theorem terminal_done_and_persists_witness :
    (ElementalOutcome.failure (.terminal (0 : Nat))).is_done = true ∧
    (∃ g ∈ ([⟨[.failure (.terminal 0)]⟩] : List (GroupingOutcome Nat)),
       ElementalOutcome.failure (.terminal (0 : Nat)) ∈ g.outcomes) :=
  ⟨terminal_done_and_persists.1 Nat 0,
   terminal_done_and_persists.2 Nat 0 [] (fun g => .ok g)
     (fun d d' h hex => by
       have h' : d = d' := by simpa [distributeStack] using h
       subst h'
       exact hex)
     (fun g g' h hmem => by
       have h' : g = g' := by simpa using h
       subst h'
       exact hmem)
     1 [⟨[.failure (.terminal 0)]⟩] [⟨[.failure (.terminal 0)]⟩]
     (Or.inl rfl)
     ⟨⟨[.failure (.terminal 0)]⟩, by simp, by simp⟩⟩

/-- C2: each driver returns the processed distribution exactly when, after a
round's processing, every replacement group is `all_done`, and otherwise
starts another round with the new distribution; any distribution a driver
returns with `ok` satisfies the predicate; and `is_done` holds exactly for
Success and Terminal-Failure outcomes. -/
theorem drivers_return_iff_all_done :
    (∀ (α : Type) (o : ElementalOutcome α),
       o.is_done = true ↔ (o = .success ∨ ∃ t, o = .failure (.terminal t))) ∧
    (∀ (α : Type) (hs : List (Heuristic α))
       (func : GroupingOutcome α → Except Nat (GroupingOutcome α))
       (fuel : Nat) (d d1 nd : List (GroupingOutcome α)),
       distributeStack hs d = .ok d1 →
       processRound func d1 = .ok nd →
       (((nd.all fun g => g.all_done) = true →
           run hs func (fuel + 1) d = some (.ok nd) ∧
           run_async_sequential hs func (fuel + 1) d = some (.ok nd)) ∧
        ((nd.all fun g => g.all_done) = false →
           run hs func (fuel + 1) d = run hs func fuel nd ∧
           run_async_sequential hs func (fuel + 1) d =
             run_async_sequential hs func fuel nd))) ∧
    (∀ (α : Type) (hs : List (Heuristic α))
       (func : GroupingOutcome α → Except Nat (GroupingOutcome α))
       (fuel : Nat) (d r : List (GroupingOutcome α)),
       run hs func fuel d = some (.ok r) ∨
       run_async_sequential hs func fuel d = some (.ok r) →
       (r.all fun g => g.all_done) = true) := by
  refine ⟨?_, ?_, ?_⟩
  · intro α o
    cases o with
    | apply t => simp [ElementalOutcome.is_done]
    | success => simp [ElementalOutcome.is_done]
    | failure f =>
      cases f with
      | instrumental t =>
        simp [ElementalOutcome.is_done, ElementalFailure.is_terminal]
      | terminal t =>
        simp [ElementalOutcome.is_done, ElementalFailure.is_terminal]
  · intro α hs func fuel d d1 nd hdist hproc
    constructor
    · intro hdone
      constructor
      · rw [run, hdist]
        simp [hproc, hdone]
      · rw [run_async_sequential_eq_run, run, hdist]
        simp [hproc, hdone]
    · intro hdone
      constructor
      · rw [run, hdist]
        simp [hproc, hdone]
      · rw [run_async_sequential_eq_run, run, hdist]
        simp [hproc, hdone, run_async_sequential_eq_run]
  · intro α hs func fuel d r hrun
    rcases hrun with hrun | hrun
    · exact run_ok_all_done hs func fuel d r hrun
    · rw [run_async_sequential_eq_run] at hrun
      exact run_ok_all_done hs func fuel d r hrun

/-- Closed instance of `drivers_return_iff_all_done`: a single already-done
group makes the first round's output be returned, and the returned
distribution satisfies the termination predicate. -/
theorem drivers_return_iff_all_done_witness :
    (ElementalOutcome.success : ElementalOutcome Nat).is_done = true ∧
    run ([] : List (Heuristic Nat)) (fun g => .ok g) 1 [⟨[.success]⟩] =
      some (.ok [⟨[.success]⟩]) ∧
    (([⟨[.success]⟩] : List (GroupingOutcome Nat)).all fun g => g.all_done) = true :=
  ⟨(drivers_return_iff_all_done.1 Nat .success).mpr (Or.inl rfl),
   ((drivers_return_iff_all_done.2.1 Nat [] (fun g => .ok g) 0
       [⟨[.success]⟩] [⟨[.success]⟩] [⟨[.success]⟩] rfl rfl).1 (by decide)).1,
   drivers_return_iff_all_done.2.2 Nat [] (fun g => .ok g) 1
     [⟨[.success]⟩] [⟨[.success]⟩] (Or.inl rfl)⟩

/-- C7: `distribute` applies the configured heuristics strictly in list order,
each consuming the previous result, and if any heuristic errors the whole call
returns that error immediately — no later heuristic runs and no partial
distribution is returned. -/
theorem distribute_threads_in_order :
    (∀ (α : Type) (h : Heuristic α) (rest : List (Heuristic α)) d,
       distributeStack (h :: rest) d =
         match h d with
         | .error e => .error e
         | .ok d1 => distributeStack rest d1) ∧
    (∀ (α : Type) (hs1 : List (Heuristic α)) (h : Heuristic α)
       (hs2 : List (Heuristic α)) (d d1 : List (GroupingOutcome α)) (e : Nat),
       distributeStack hs1 d = .ok d1 → h d1 = .error e →
       distributeStack (hs1 ++ h :: hs2) d = .error e) := by
  constructor
  · intro α h rest d
    rfl
  · intro α hs1 h hs2
    induction hs1 with
    | nil =>
      intro d d1 e hd he
      have h' : d = d1 := by simpa [distributeStack] using hd
      subst h'
      simp [distributeStack, he]
    | cons h0 rest ih =>
      intro d d1 e hd he
      rw [distributeStack] at hd
      split at hd
      · exact absurd hd (by simp)
      · rename_i dd hh0
        rw [List.cons_append, distributeStack, hh0]
        exact ih dd d1 e hd he

/-- Closed instance of `distribute_threads_in_order`: an erroring heuristic in
the middle of the stack makes the whole `distribute` return its error. -/
theorem distribute_threads_in_order_witness :
    distributeStack [okHeuristic, errHeuristic, okHeuristic] [] = .error 7 :=
  distribute_threads_in_order.2 Nat [okHeuristic] errHeuristic [okHeuristic]
    [] [] 7 rfl rfl

/-- C10: any distribution either driver returns with `ok` went through at
least one full round first — `distribute` succeeded on the input and the
processing function was applied to every resulting group — and concretely,
even a seed of `new_all_success` groups (already all done) is passed through
`distribute` and the processing function once per group before the driver
returns, as the recorded call trace shows. -/
theorem run_executes_first_round :
    (∀ (α : Type) (hs : List (Heuristic α))
       (func : GroupingOutcome α → Except Nat (GroupingOutcome α))
       (fuel : Nat) (d r : List (GroupingOutcome α)),
       run hs func fuel d = some (.ok r) ∨
       run_async_sequential hs func fuel d = some (.ok r) →
       ∃ d1 nd, distributeStack hs d = .ok d1 ∧ processRound func d1 = .ok nd) ∧
    runWithCalls ([] : List (Heuristic Nat)) (fun g => .ok g) 1
        [GroupingOutcome.new_all_success 4] =
      some (.ok [GroupingOutcome.new_all_success 4],
        [GroupingOutcome.new_all_success 4]) := by
  constructor
  · intro α hs func fuel d r hrun
    rcases hrun with hrun | hrun
    · exact run_ok_first_round hs func fuel d r hrun
    · rw [run_async_sequential_eq_run] at hrun
      exact run_ok_first_round hs func fuel d r hrun
  · rfl

/-- Closed instance of `run_executes_first_round`: a successful run on an
already-done seed still yields a first round whose distribute and processing
calls all succeeded. -/
theorem run_executes_first_round_witness :
    ∃ d1 nd,
      distributeStack ([] : List (Heuristic Nat))
          [GroupingOutcome.new_all_success 2] = .ok d1 ∧
      processRound (fun g => .ok g) d1 = .ok nd :=
  run_executes_first_round.1 Nat [] (fun g => .ok g) 1
    [GroupingOutcome.new_all_success 2] [GroupingOutcome.new_all_success 2]
    (Or.inl rfl)
